import Mathlib

/-!
Shallow embedding of Service.h: the task handle CServiceFunction and the
single-worker executor CServiceThread.

Callables are abstracted to identifiers of type Nat (the stored
boost thread-data context), and handler objects (CServiceFunctionHandler
pointers) to identifiers of type Nat as well; a handler pointer is
Option Nat, with none standing for NULL. Pointer dereference through a
null or uninitialized handler pointer is undefined behavior in the C++
source and is modelled by the Option monad: Run returns none there.

Queue discipline, shutdown flags, the wait predicate and the loop body
are transcribed from the corresponding lines of src/Service.h, cited at
each definition.
-/

namespace Service

/-- State of the m_pHandler field of a CServiceFunction. All constructors
except the one taking boost thread attributes write it (either NULL or the
supplied pointer); the attributes constructor (Service.h lines 46-48) has
no mem-initializer for it, leaving it indeterminate. -/
inductive HandlerField where
  | ptr (p : Option Nat)
  | indeterminate
deriving DecidableEq

/-- CServiceFunction (Service.h lines 13-73): a heap task handle holding a
handler field and a stored callable context. -/
structure CServiceFunction where
  m_pHandler : HandlerField
  m_Context : Nat
deriving DecidableEq

namespace CServiceFunction

/-- Constructor CServiceFunction(f) (Service.h lines 25-28): m_pHandler is
initialized to NULL. -/
def ofF (f : Nat) : CServiceFunction := ⟨HandlerField.ptr none, f⟩

/-- Constructor CServiceFunction(f, pHandler) (Service.h lines 30-33):
m_pHandler is initialized to the supplied pointer. -/
def ofFH (f : Nat) (p : Option Nat) : CServiceFunction := ⟨HandlerField.ptr p, f⟩

/-- Variadic constructor CServiceFunction(f, args...) (Service.h lines
35-38): m_pHandler is initialized to NULL. -/
def ofBind (f : Nat) : CServiceFunction := ⟨HandlerField.ptr none, f⟩

/-- Variadic constructor CServiceFunction(pHandler, f, args...) (Service.h
lines 40-43): m_pHandler is initialized to the supplied pointer. -/
def ofBindH (p : Option Nat) (f : Nat) : CServiceFunction := ⟨HandlerField.ptr p, f⟩

/-- Constructor CServiceFunction(attr, f) (Service.h lines 45-48): the
mem-initializer list is empty and the body only assigns m_Context, so
m_pHandler is left indeterminate. -/
def ofAttr (f : Nat) : CServiceFunction := ⟨HandlerField.indeterminate, f⟩

/-- Observable events of executing a task handle. -/
inductive Event where
  | onCallFunction (h : Nat)
  | runContext (c : Nat)
  | onReturnFunction (h : Nat)
deriving DecidableEq

/-- Run (Service.h lines 64-68). The body is three statements with no null
check: m_pHandler->OnCallFunction(); m_Context->run();
m_pHandler->OnReturnFunction(). When m_pHandler is a valid pointer the
event trace is produced; when it is NULL or indeterminate the very first
statement dereferences an invalid pointer, which is undefined behavior,
modelled as none. -/
def Run (f : CServiceFunction) : Option (List Event) :=
  match f.m_pHandler with
  | HandlerField.ptr (some h) =>
      some [Event.onCallFunction h, Event.runContext f.m_Context, Event.onReturnFunction h]
  | HandlerField.ptr none => none
  | HandlerField.indeterminate => none

end CServiceFunction

/-- CServiceThread state (Service.h lines 75-87): the deque of task handle
pointers (head of the list = front of the deque) and the three atomic
flags. The mutex, condition variable and thread object carry no modelled
data. -/
structure CServiceThread where
  m_WorkQueue : List CServiceFunction
  m_bBusy : Bool
  m_bWork : Bool
  m_bDeleteLater : Bool
deriving DecidableEq

namespace CServiceThread

/-- Constructor (Service.h lines 109-115): empty queue, busy false, work
true, deleteLater false; the worker thread is started on Wait. -/
def init : CServiceThread := ⟨[], false, true, false⟩

/-- Release (Service.h lines 117-121): immediate shutdown, clears the work
flag. The notify carries no state. -/
def Release (s : CServiceThread) : CServiceThread := { s with m_bWork := false }

/-- ReleaseAfterWork (Service.h lines 123-127): graceful shutdown, sets the
deleteLater flag. -/
def ReleaseAfterWork (s : CServiceThread) : CServiceThread := { s with m_bDeleteLater := true }

/-- The guard tested by every posting overload (Service.h lines 179, 198,
213, 228): not deleteLater and still working. -/
def acceptsPost (s : CServiceThread) : Bool := !s.m_bDeleteLater && s.m_bWork

/-- Post(f) (Service.h lines 193-206): under the mutex, if the guard holds
a new CServiceFunction(f) is pushed at the back of the queue; otherwise
nothing happens and nothing is returned to the caller. -/
def Post (s : CServiceThread) (f : Nat) : CServiceThread :=
  if s.acceptsPost then
    { s with m_WorkQueue := s.m_WorkQueue ++ [CServiceFunction.ofF f] }
  else s

/-- Post(f, pHandler) (Service.h lines 208-221): same guard, pushes a
handle built with the supplied handler pointer. -/
def PostH (s : CServiceThread) (f : Nat) (p : Option Nat) : CServiceThread :=
  if s.acceptsPost then
    { s with m_WorkQueue := s.m_WorkQueue ++ [CServiceFunction.ofFH f p] }
  else s

/-- Post(pHandler, func, params...) (Service.h lines 223-236): same guard,
pushes a handle built from the bound call and the supplied handler. -/
def PostBindH (s : CServiceThread) (p : Option Nat) (f : Nat) : CServiceThread :=
  if s.acceptsPost then
    { s with m_WorkQueue := s.m_WorkQueue ++ [CServiceFunction.ofBindH p f] }
  else s

/-- TryPost(f) (Service.h lines 172-191). The first argument models whether
the try_to_lock acquisition at line 175 succeeded. On success the guarded
push is attempted (lines 179-185) and true is returned whether or not the
push happened; on failure false is returned and nothing changes. -/
def TryPost (lockAcquired : Bool) (s : CServiceThread) (f : Nat) :
    Bool × CServiceThread :=
  if lockAcquired then
    if !s.m_bDeleteLater && s.m_bWork then
      (true, { s with m_WorkQueue := s.m_WorkQueue ++ [CServiceFunction.ofF f] })
    else
      (true, s)
  else
    (false, s)

/-- The condition-variable predicate waited on in Wait (Service.h lines
140-145): queue non-empty, or deleteLater, or not working. -/
def waitPredicate (s : CServiceThread) : Bool :=
  !s.m_WorkQueue.isEmpty || s.m_bDeleteLater || !s.m_bWork

/-- Loop body of Clear (Service.h lines 101-105): while the queue is
non-empty, Release the element at index 0 and then pop_back. Each pass
removes exactly one element from the back, so the loop runs once per
initial element; the first argument is that structural fuel. Returns the
sequence of Release calls performed, in order. Note the element released
is the front while the element removed is the back. -/
def ClearLoop : Nat → List CServiceFunction → List CServiceFunction
  | 0, _ => []
  | _, [] => []
  | fuel + 1, x :: xs => x :: ClearLoop fuel (List.dropLast (x :: xs))

/-- Clear (Service.h lines 99-106), run by the destructor: the Release
calls performed on a queue with the given contents. -/
def ClearReleased (l : List CServiceFunction) : List CServiceFunction :=
  ClearLoop l.length l

end CServiceThread

/-!
Whole-system semantics. The mutex serializes every critical section, so a
run of the system is a sequence of atomic operations: the posting
operations, the two shutdown signals, and one iteration of the Wait loop
body (Service.h lines 129-170). The record also keeps ghost history: the
handles successfully enqueued (in mutex order), the handles the worker
executed (in order), and the handles discarded unexecuted at termination.
Once the instance has deleted itself (terminated) no operation has any
modelled effect.
-/

/-- One atomic operation of the system. -/
inductive Op where
  | post (f : Nat)
  | postH (f h : Nat)
  | tryPost (lockAcquired : Bool) (f : Nat)
  | release
  | releaseAfterWork
  | workerStep
deriving DecidableEq

/-- System state: the CServiceThread object plus ghost history. -/
structure Sys where
  th : CServiceThread
  executed : List CServiceFunction
  enqueued : List CServiceFunction
  discarded : List CServiceFunction
  terminated : Bool
deriving DecidableEq

/-- Initial system state, from the CServiceThread constructor. -/
def Sys.init : Sys := ⟨CServiceThread.init, [], [], [], false⟩

/-- One atomic step. The workerStep case transcribes one pass of Wait
(Service.h lines 133-166): the wait predicate gates progress; if
deleteLater and the queue is empty, or if work is cleared, the thread
unlocks and self-destructs (SafeRelease, discarding whatever is still
queued without executing it); otherwise the front handle is popped and
executed. -/
def step (s : Sys) (op : Op) : Sys :=
  if s.terminated then s
  else
    match op with
    | Op.post f =>
        { s with
          th := s.th.Post f
          enqueued := s.enqueued ++
            (if s.th.acceptsPost then [CServiceFunction.ofF f] else []) }
    | Op.postH f h =>
        { s with
          th := s.th.PostH f (some h)
          enqueued := s.enqueued ++
            (if s.th.acceptsPost then [CServiceFunction.ofFH f (some h)] else []) }
    | Op.tryPost lk f =>
        { s with
          th := (CServiceThread.TryPost lk s.th f).2
          enqueued := s.enqueued ++
            (if lk && s.th.acceptsPost then [CServiceFunction.ofF f] else []) }
    | Op.release => { s with th := s.th.Release }
    | Op.releaseAfterWork => { s with th := s.th.ReleaseAfterWork }
    | Op.workerStep =>
        if !s.th.waitPredicate then s
        else if s.th.m_bDeleteLater && s.th.m_WorkQueue.isEmpty then
          { s with
            terminated := true
            discarded := s.discarded ++ s.th.m_WorkQueue
            th := { s.th with m_WorkQueue := [] } }
        else if !s.th.m_bWork then
          { s with
            terminated := true
            discarded := s.discarded ++ s.th.m_WorkQueue
            th := { s.th with m_WorkQueue := [] } }
        else
          match s.th.m_WorkQueue with
          | [] => s
          | f :: rest =>
              { s with
                th := { s.th with m_WorkQueue := rest }
                executed := s.executed ++ [f] }

/-- Run a sequence of atomic operations from the initial state. -/
def run (ops : List Op) : Sys := ops.foldl step Sys.init

/-- Iterate the worker loop body a given number of times. -/
def runWorker : Nat → Sys → Sys
  | 0, s => s
  | n + 1, s => runWorker n (step s Op.workerStep)

/-!
Static lock-discipline table. Each entry records one mutation of the
shared mutable state in src/Service.h (the operation performing it, the
variable mutated, and whether the mutex is held at that statement), read
off the source:
  Post pushes at line 202 under the scoped_lock of line 196 (likewise the
  handler overloads at 217/211 and 232/226); TryPost pushes at line 183
  only in the branch where the try_to_lock of line 175 succeeded; Release
  writes m_bWork at line 119 with no lock taken; ReleaseAfterWork writes
  m_bDeleteLater at line 125 with no lock taken; the loop pops the front
  at line 161 with the lock held (unlocked only at line 162); Clear
  mutates the queue at lines 101-105, reached through SafeRelease only
  after lock.unlock() (lines 149, 155, 168).
-/

/-- The operations of Service.h that mutate shared state. -/
inductive MutOp where
  | post
  | postH
  | postBindH
  | tryPost
  | release
  | releaseAfterWork
  | waitDequeue
  | clearOnDestroy
deriving DecidableEq

/-- The shared mutable variables of CServiceThread. -/
inductive SharedVar where
  | queue
  | workFlag
  | deleteLaterFlag
  | busyFlag
deriving DecidableEq

/-- One mutation site: which operation mutates which variable, and whether
the mutex is held there. -/
structure MutationSite where
  op : MutOp
  var : SharedVar
  underMutex : Bool
deriving DecidableEq

/-- All mutation sites of the shared state in src/Service.h, with line
references in the section comment above. -/
def mutationSites : List MutationSite :=
  [ ⟨MutOp.post, SharedVar.queue, true⟩,
    ⟨MutOp.postH, SharedVar.queue, true⟩,
    ⟨MutOp.postBindH, SharedVar.queue, true⟩,
    ⟨MutOp.tryPost, SharedVar.queue, true⟩,
    ⟨MutOp.release, SharedVar.workFlag, false⟩,
    ⟨MutOp.releaseAfterWork, SharedVar.deleteLaterFlag, false⟩,
    ⟨MutOp.waitDequeue, SharedVar.queue, true⟩,
    ⟨MutOp.clearOnDestroy, SharedVar.queue, false⟩ ]

/-!
Helper lemmas shared by the claim theorems.
-/

/-- Central ghost invariant: the executed handles, the still-queued
handles, and the handles discarded at termination partition the
successfully enqueued handles, in enqueue order; nothing is discarded
before termination. -/
def Inv (s : Sys) : Prop :=
  s.executed ++ s.th.m_WorkQueue ++ s.discarded = s.enqueued ∧
  (s.terminated = false → s.discarded = [])

theorem step_eq_of_terminated (s : Sys) (op : Op) (ht : s.terminated = true) :
    step s op = s := by
  unfold step
  simp [ht]

theorem step_inv (s : Sys) (op : Op) (h : Inv s) : Inv (step s op) := by
  obtain ⟨h1, h2⟩ := h
  by_cases ht : s.terminated = true
  · rw [step_eq_of_terminated s op ht]
    exact ⟨h1, h2⟩
  · have ht0 : s.terminated = false := by simpa using ht
    have hd : s.discarded = [] := h2 ht0
    rw [hd, List.append_nil] at h1
    cases op with
    | post f =>
        by_cases ha : s.th.acceptsPost = true <;>
          exact ⟨by simp [step, ht0, CServiceThread.Post, ha, hd, ← h1],
                 by simp [step, ht0, hd]⟩
    | postH f hh =>
        by_cases ha : s.th.acceptsPost = true <;>
          exact ⟨by simp [step, ht0, CServiceThread.PostH, ha, hd, ← h1],
                 by simp [step, ht0, hd]⟩
    | tryPost lk f =>
        cases lk with
        | true =>
            by_cases hc : (!s.th.m_bDeleteLater && s.th.m_bWork) = true <;>
              exact ⟨by simp [step, ht0, CServiceThread.TryPost,
                              CServiceThread.acceptsPost, hc, hd, ← h1],
                     by simp [step, ht0, hd]⟩
        | false =>
            exact ⟨by simp [step, ht0, CServiceThread.TryPost, hd, ← h1],
                   by simp [step, ht0, hd]⟩
    | release =>
        exact ⟨by simp [step, ht0, CServiceThread.Release, hd, h1],
               by simp [step, ht0, hd]⟩
    | releaseAfterWork =>
        exact ⟨by simp [step, ht0, CServiceThread.ReleaseAfterWork, hd, h1],
               by simp [step, ht0, hd]⟩
    | workerStep =>
        by_cases hp : s.th.waitPredicate = true
        · by_cases hdl : (s.th.m_bDeleteLater && s.th.m_WorkQueue.isEmpty) = true
          · exact ⟨by simp [step, ht0, hp, hdl, hd, h1],
                   by simp [step, ht0, hp, hdl]⟩
          · by_cases hw : s.th.m_bWork = true
            · cases hq : s.th.m_WorkQueue with
              | nil =>
                  have hdl0 : s.th.m_bDeleteLater = false := by
                    rw [hq] at hdl
                    simpa using hdl
                  simp [CServiceThread.waitPredicate, hq, hdl0, hw] at hp
              | cons f rest =>
                  have h1' : s.executed ++ f :: rest = s.enqueued := by
                    rw [← hq]; exact h1
                  exact ⟨by simp [step, ht0, hp, hdl, hw, hq, hd, ← h1'],
                         by simp [step, ht0, hp, hdl, hw, hq, hd]⟩
            · exact ⟨by simp [step, ht0, hp, hdl, hw, hd, h1],
                     by simp [step, ht0, hp, hdl, hw]⟩
        · have hp0 : s.th.waitPredicate = false := by simpa using hp
          have hstep : step s Op.workerStep = s := by
            simp [step, ht0, hp0]
          rw [hstep]
          exact ⟨by simp [hd, h1], h2⟩

theorem foldl_inv (ops : List Op) (s : Sys) (h : Inv s) :
    Inv (ops.foldl step s) := by
  induction ops generalizing s with
  | nil => exact h
  | cons op rest ih => exact ih (step s op) (step_inv s op h)

theorem run_inv (ops : List Op) : Inv (run ops) :=
  foldl_inv ops Sys.init ⟨rfl, fun _ => rfl⟩

theorem acceptsPost_eq_false (s : CServiceThread)
    (h : s.m_bDeleteLater = true ∨ s.m_bWork = false) :
    s.acceptsPost = false := by
  rcases h with h | h <;> simp [CServiceThread.acceptsPost, h]

/-- Once the instance has terminated or the work flag is cleared, the set
of successfully enqueued handles is frozen: the work flag is never set
again and a dead instance changes nothing. -/
def Frozen (s : Sys) : Prop := s.terminated = true ∨ s.th.m_bWork = false

theorem step_frozen (s : Sys) (op : Op) (h : Frozen s) :
    Frozen (step s op) ∧ (step s op).enqueued = s.enqueued := by
  by_cases ht : s.terminated = true
  · rw [step_eq_of_terminated s op ht]
    exact ⟨h, rfl⟩
  · have ht0 : s.terminated = false := by simpa using ht
    have hw : s.th.m_bWork = false := by
      rcases h with h | h
      · exact absurd h ht
      · exact h
    have hacc : s.th.acceptsPost = false := by
      simp [CServiceThread.acceptsPost, hw]
    have hc : (!s.th.m_bDeleteLater && s.th.m_bWork) = false := by simp [hw]
    cases op with
    | post f =>
        exact ⟨Or.inr (by simp [step, ht0, CServiceThread.Post, hacc, hw]),
               by simp [step, ht0, hacc]⟩
    | postH f hh =>
        exact ⟨Or.inr (by simp [step, ht0, CServiceThread.PostH, hacc, hw]),
               by simp [step, ht0, hacc]⟩
    | tryPost lk f =>
        cases lk with
        | true =>
            exact ⟨Or.inr (by simp [step, ht0, CServiceThread.TryPost, hc, hw]),
                   by simp [step, ht0, hacc]⟩
        | false =>
            exact ⟨Or.inr (by simp [step, ht0, CServiceThread.TryPost, hw]),
                   by simp [step, ht0]⟩
    | release =>
        exact ⟨Or.inr (by simp [step, ht0, CServiceThread.Release]),
               by simp [step, ht0]⟩
    | releaseAfterWork =>
        exact ⟨Or.inr (by simp [step, ht0, CServiceThread.ReleaseAfterWork, hw]),
               by simp [step, ht0]⟩
    | workerStep =>
        have hp : s.th.waitPredicate = true := by
          simp [CServiceThread.waitPredicate, hw]
        by_cases hdl : (s.th.m_bDeleteLater && s.th.m_WorkQueue.isEmpty) = true
        · exact ⟨Or.inl (by simp [step, ht0, hp, hdl]),
                 by simp [step, ht0, hp, hdl]⟩
        · exact ⟨Or.inl (by simp [step, ht0, hp, hdl, hw]),
                 by simp [step, ht0, hp, hdl, hw]⟩

theorem foldl_frozen (ops : List Op) (s : Sys) (h : Frozen s) :
    Frozen (ops.foldl step s) ∧ (ops.foldl step s).enqueued = s.enqueued := by
  induction ops generalizing s with
  | nil => exact ⟨h, rfl⟩
  | cons op rest ih =>
      obtain ⟨hf, he⟩ := step_frozen s op h
      obtain ⟨hf2, he2⟩ := ih (step s op) hf
      exact ⟨hf2, he2.trans he⟩

theorem release_step_frozen (s : Sys) : Frozen (step s Op.release) := by
  by_cases ht : s.terminated = true
  · rw [step_eq_of_terminated s Op.release ht]
    exact Or.inl ht
  · have ht0 : s.terminated = false := by simpa using ht
    exact Or.inr (by simp [step, ht0, CServiceThread.Release])

theorem step_busy (s : Sys) (op : Op) :
    (step s op).th.m_bBusy = s.th.m_bBusy := by
  by_cases ht : s.terminated = true
  · rw [step_eq_of_terminated s op ht]
  · have ht0 : s.terminated = false := by simpa using ht
    cases op with
    | post f =>
        by_cases ha : s.th.acceptsPost = true <;>
          simp [step, ht0, CServiceThread.Post, ha]
    | postH f hh =>
        by_cases ha : s.th.acceptsPost = true <;>
          simp [step, ht0, CServiceThread.PostH, ha]
    | tryPost lk f =>
        cases lk with
        | true =>
            by_cases hc : (!s.th.m_bDeleteLater && s.th.m_bWork) = true <;>
              simp [step, ht0, CServiceThread.TryPost, hc]
        | false => simp [step, ht0, CServiceThread.TryPost]
    | release => simp [step, ht0, CServiceThread.Release]
    | releaseAfterWork => simp [step, ht0, CServiceThread.ReleaseAfterWork]
    | workerStep =>
        by_cases hp : s.th.waitPredicate = true
        · by_cases hdl : (s.th.m_bDeleteLater && s.th.m_WorkQueue.isEmpty) = true
          · simp [step, ht0, hp, hdl]
          · by_cases hw : s.th.m_bWork = true
            · cases hq : s.th.m_WorkQueue with
              | nil =>
                  have hdl0 : s.th.m_bDeleteLater = false := by
                    rw [hq] at hdl
                    simpa using hdl
                  simp [CServiceThread.waitPredicate, hq, hdl0, hw] at hp
              | cons f rest => simp [step, ht0, hp, hdl, hw, hq]
            · simp [step, ht0, hp, hdl, hw]
        · simp [step, ht0, hp]

theorem foldl_busy (ops : List Op) (s : Sys) :
    (ops.foldl step s).th.m_bBusy = s.th.m_bBusy := by
  induction ops generalizing s with
  | nil => rfl
  | cons op rest ih => exact (ih (step s op)).trans (step_busy s op)

theorem raw_drain (q : List CServiceFunction) :
    ∀ s : Sys, s.terminated = false → s.th.m_bDeleteLater = true →
      s.th.m_bWork = true → s.th.m_WorkQueue = q →
      (runWorker (q.length + 1) s).terminated = true ∧
      (runWorker (q.length + 1) s).executed = s.executed ++ q ∧
      (runWorker (q.length + 1) s).th.m_WorkQueue = [] ∧
      (runWorker (q.length + 1) s).discarded = s.discarded := by
  induction q with
  | nil =>
      intro s ht hdl hw hq
      have hp : s.th.waitPredicate = true := by
        simp [CServiceThread.waitPredicate, hdl]
      have hdle : (s.th.m_bDeleteLater && s.th.m_WorkQueue.isEmpty) = true := by
        simp [hdl, hq]
      have hstep : step s Op.workerStep =
          { s with
            terminated := true
            discarded := s.discarded ++ s.th.m_WorkQueue
            th := { s.th with m_WorkQueue := [] } } := by
        simp [step, ht, hp, hdle]
      simp [runWorker, hstep, hq]
  | cons f rest ih =>
      intro s ht hdl hw hq
      have hp : s.th.waitPredicate = true := by
        simp [CServiceThread.waitPredicate, hdl]
      have hdle : (s.th.m_bDeleteLater && s.th.m_WorkQueue.isEmpty) = false := by
        simp [hq]
      have hstep : step s Op.workerStep =
          { s with
            th := { s.th with m_WorkQueue := rest }
            executed := s.executed ++ [f] } := by
        simp [step, ht, hp, hdle, hw, hq]
      have hrec := ih (step s Op.workerStep) (by simp [hstep, ht])
        (by simp [hstep, hdl]) (by simp [hstep, hw]) (by simp [hstep])
      obtain ⟨t1, t2, t3, t4⟩ := hrec
      have hrw : runWorker ((f :: rest).length + 1) s
          = runWorker (rest.length + 1) (step s Op.workerStep) := rfl
      refine ⟨?_, ?_, ?_, ?_⟩
      · rw [hrw]; exact t1
      · rw [hrw, t2, hstep]; simp
      · rw [hrw]; exact t3
      · rw [hrw, t4, hstep]

/-!
The claim theorems.
-/

/-- C1 (code bug evaluation): Run is supposed to fire the before hook,
then the callable, then the after hook when a hook is present, and to run
the callable alone when none is present. The code, Service.h lines 64-68,
has no null check: with a handler the trace is exactly before, body,
after, each once; with no handler (m_pHandler initialized to NULL by the
hookless constructors) the first statement dereferences NULL, undefined
behavior, modelled as none, rather than running the callable alone. -/
theorem run_hook_trace_and_null_dereference (c h : Nat) :
    CServiceFunction.Run (CServiceFunction.ofFH c (some h)) =
      some [CServiceFunction.Event.onCallFunction h,
            CServiceFunction.Event.runContext c,
            CServiceFunction.Event.onReturnFunction h] ∧
    CServiceFunction.Run (CServiceFunction.ofF c) = none :=
  ⟨rfl, rfl⟩

/-- C2 (code bug evaluation): Clear is supposed to Release every queued
handle exactly once. The loop at Service.h lines 101-105 releases the
element at index 0 but pops from the back, so on a queue of two distinct
handles the front handle is Released twice (double free) and the back
handle is never Released (leak), though neither is executed. -/
theorem clear_double_release :
    CServiceThread.ClearReleased [CServiceFunction.ofF 0, CServiceFunction.ofF 1]
      = [CServiceFunction.ofF 0, CServiceFunction.ofF 0] ∧
    (CServiceThread.ClearReleased
        [CServiceFunction.ofF 0, CServiceFunction.ofF 1]).count
      (CServiceFunction.ofF 0) = 2 ∧
    (CServiceThread.ClearReleased
        [CServiceFunction.ofF 0, CServiceFunction.ofF 1]).count
      (CServiceFunction.ofF 1) = 0 := by
  refine ⟨?_, ?_, ?_⟩ <;> decide

/-- C3: execution order is strict FIFO. In every run of the system, the
executed handles followed by the still-queued handles followed by the
handles discarded at termination are exactly the successfully enqueued
handles in the total enqueue order; in particular the executed sequence is
always a prefix of the enqueue sequence, with no reordering, priority, or
batching. -/
theorem fifo_execution_order (ops : List Op) :
    (run ops).executed ++ (run ops).th.m_WorkQueue ++ (run ops).discarded
      = (run ops).enqueued ∧
    ∃ t, (run ops).executed ++ t = (run ops).enqueued := by
  have h := run_inv ops
  refine ⟨h.1, ⟨(run ops).th.m_WorkQueue ++ (run ops).discarded, ?_⟩⟩
  rw [← List.append_assoc]
  exact h.1

/-- C4: graceful shutdown drains fully. From any live state with the
deferred-stop flag set and the run flag still true and k handles queued,
k + 1 further passes of the worker loop execute exactly those k handles in
queue order, leave the queue empty, discard nothing, and reach the
terminal self-destruct state; moreover a Post in that state is a no-op, so
the queue can only shrink. -/
theorem releaseAfterWork_drains_and_terminates (s : Sys) (g : Nat)
    (h0 : s.terminated = false) (h1 : s.th.m_bDeleteLater = true)
    (h2 : s.th.m_bWork = true) :
    (runWorker (s.th.m_WorkQueue.length + 1) s).terminated = true ∧
    (runWorker (s.th.m_WorkQueue.length + 1) s).executed
      = s.executed ++ s.th.m_WorkQueue ∧
    (runWorker (s.th.m_WorkQueue.length + 1) s).th.m_WorkQueue = [] ∧
    (runWorker (s.th.m_WorkQueue.length + 1) s).discarded = s.discarded ∧
    s.th.Post g = s.th := by
  obtain ⟨t1, t2, t3, t4⟩ := raw_drain s.th.m_WorkQueue s h0 h1 h2 rfl
  exact ⟨t1, t2, t3, t4,
    by simp [CServiceThread.Post, acceptsPost_eq_false s.th (Or.inl h1)]⟩

/-- Witness for C4: two tasks posted and then ReleaseAfterWork; three
worker passes execute both tasks in order and terminate the instance. -/
theorem releaseAfterWork_drains_and_terminates_witness :
    (runWorker ((run [Op.post 5, Op.post 7, Op.releaseAfterWork]).th.m_WorkQueue.length + 1)
        (run [Op.post 5, Op.post 7, Op.releaseAfterWork])).terminated = true ∧
    (runWorker ((run [Op.post 5, Op.post 7, Op.releaseAfterWork]).th.m_WorkQueue.length + 1)
        (run [Op.post 5, Op.post 7, Op.releaseAfterWork])).executed
      = (run [Op.post 5, Op.post 7, Op.releaseAfterWork]).executed
        ++ (run [Op.post 5, Op.post 7, Op.releaseAfterWork]).th.m_WorkQueue ∧
    (runWorker ((run [Op.post 5, Op.post 7, Op.releaseAfterWork]).th.m_WorkQueue.length + 1)
        (run [Op.post 5, Op.post 7, Op.releaseAfterWork])).th.m_WorkQueue = [] ∧
    (runWorker ((run [Op.post 5, Op.post 7, Op.releaseAfterWork]).th.m_WorkQueue.length + 1)
        (run [Op.post 5, Op.post 7, Op.releaseAfterWork])).discarded
      = (run [Op.post 5, Op.post 7, Op.releaseAfterWork]).discarded ∧
    (run [Op.post 5, Op.post 7, Op.releaseAfterWork]).th.Post 3
      = (run [Op.post 5, Op.post 7, Op.releaseAfterWork]).th :=
  releaseAfterWork_drains_and_terminates
    (run [Op.post 5, Op.post 7, Op.releaseAfterWork]) 3
    (by decide) (by decide) (by decide)

/-- C5: no execution after hard stop. For any trace that performs Release,
the set of successfully enqueued handles never grows afterward, and every
handle the worker ever executes in the extended trace was already enqueued
by the time Release completed; hence a task whose context is posted only
after Release never executes. -/
theorem no_execution_after_release (pre suf : List Op) (g : Nat)
    (h : ((run (pre ++ [Op.release])).enqueued.all fun x => x.m_Context != g)
      = true) :
    (run (pre ++ Op.release :: suf)).enqueued
      = (run (pre ++ [Op.release])).enqueued ∧
    ((run (pre ++ Op.release :: suf)).executed.all fun x => x.m_Context != g)
      = true := by
  have hsplit : run (pre ++ Op.release :: suf)
      = suf.foldl step (step (run pre) Op.release) := by
    simp [run, List.foldl_append]
  have hfr : run (pre ++ [Op.release]) = step (run pre) Op.release := by
    simp [run, List.foldl_append]
  have hfreeze :=
    (foldl_frozen suf (step (run pre) Op.release) (release_step_frozen (run pre))).2
  constructor
  · rw [hsplit, hfr]
    exact hfreeze
  · rw [List.all_eq_true] at h ⊢
    intro x hx
    have hinv := (run_inv (pre ++ Op.release :: suf)).1
    have hmem : x ∈ (run (pre ++ Op.release :: suf)).enqueued := by
      rw [← hinv]
      exact List.mem_append_left _ (List.mem_append_left _ hx)
    rw [hsplit, hfreeze, ← hfr] at hmem
    exact h x hmem

/-- Witness for C5: post task 0, Release, then attempt to post task 1 and
run the worker; task 1 is never enqueued and nothing with context 1 is
ever executed. -/
theorem no_execution_after_release_witness :
    (run ([Op.post 0] ++ Op.release :: [Op.post 1, Op.workerStep])).enqueued
      = (run ([Op.post 0] ++ [Op.release])).enqueued ∧
    ((run ([Op.post 0] ++ Op.release :: [Op.post 1, Op.workerStep])).executed.all
        fun x => x.m_Context != 1) = true :=
  no_execution_after_release [Op.post 0] [Op.post 1, Op.workerStep] 1 (by decide)

/-- C6: posting after either shutdown mode is active is a silent no-op:
all three Post overloads return the state unchanged (no handle allocated,
queue and flags untouched), and at the system level the enqueue history is
also unchanged; no error value exists since Post returns nothing. -/
theorem post_after_shutdown_noop (s : CServiceThread) (sys : Sys)
    (f g q : Nat) (p : Option Nat)
    (h : s.m_bDeleteLater = true ∨ s.m_bWork = false)
    (h2 : sys.th.m_bDeleteLater = true ∨ sys.th.m_bWork = false) :
    s.Post f = s ∧ s.PostH f p = s ∧ s.PostBindH p g = s ∧
    step sys (Op.post q) = sys := by
  have ha := acceptsPost_eq_false s h
  have ha2 := acceptsPost_eq_false sys.th h2
  refine ⟨by simp [CServiceThread.Post, ha], by simp [CServiceThread.PostH, ha],
    by simp [CServiceThread.PostBindH, ha], ?_⟩
  by_cases ht : sys.terminated = true
  · exact step_eq_of_terminated sys (Op.post q) ht
  · have ht0 : sys.terminated = false := by simpa using ht
    obtain ⟨th, ex, en, di, te⟩ := sys
    simp only at ht0 ha2
    subst ht0
    simp [step, CServiceThread.Post, ha2]

/-- Witness for C6 after an immediate shutdown: the run flag is cleared
and every Post overload leaves the state untouched. -/
theorem post_after_shutdown_noop_witness :
    CServiceThread.init.Release.Post 4 = CServiceThread.init.Release ∧
    CServiceThread.init.Release.PostH 4 (some 2) = CServiceThread.init.Release ∧
    CServiceThread.init.Release.PostBindH (some 2) 6 = CServiceThread.init.Release ∧
    step (run [Op.release]) (Op.post 8) = run [Op.release] :=
  post_after_shutdown_noop CServiceThread.init.Release (run [Op.release])
    4 6 8 (some 2) (Or.inr rfl) (Or.inr (by decide))

/-- C7: TryPost returns true exactly when the try-lock acquisition
succeeded, independent of whether anything was enqueued: with the lock
acquired under an active shutdown mode it returns true and changes
nothing, and with the lock unavailable it returns false and changes
nothing. -/
theorem tryPost_returns_lock_acquisition (lk : Bool) (s s2 : CServiceThread)
    (f : Nat)
    (h : s.m_bDeleteLater = true ∨ s.m_bWork = false) :
    (CServiceThread.TryPost lk s2 f).1 = lk ∧
    CServiceThread.TryPost true s f = (true, s) ∧
    CServiceThread.TryPost false s2 f = (false, s2) := by
  have hc : (!s.m_bDeleteLater && s.m_bWork) = false := by
    rcases h with h | h <;> simp [h]
  refine ⟨?_, by simp [CServiceThread.TryPost, hc], rfl⟩
  cases lk with
  | true =>
      by_cases hcc : (!s2.m_bDeleteLater && s2.m_bWork) = true <;>
        simp [CServiceThread.TryPost, hcc]
  | false => rfl

/-- Witness for C7: with deferred stop set, a successful try-lock returns
true while enqueuing nothing, and a failed try-lock returns false. -/
theorem tryPost_returns_lock_acquisition_witness :
    (CServiceThread.TryPost true CServiceThread.init 9).1 = true ∧
    CServiceThread.TryPost true CServiceThread.init.ReleaseAfterWork 9
      = (true, CServiceThread.init.ReleaseAfterWork) ∧
    CServiceThread.TryPost false CServiceThread.init 9
      = (false, CServiceThread.init) :=
  tryPost_returns_lock_acquisition true CServiceThread.init.ReleaseAfterWork
    CServiceThread.init 9 (Or.inl rfl)

/-- C8 counterexample: the claim that every mutation of the shared state
happens while the mutex is held is false on the code. Release writes
m_bWork at Service.h line 119 with no lock taken, so not every mutation
site in the lock-discipline table is under the mutex. -/
theorem mutation_not_all_under_mutex :
    ((mutationSites.all fun m => m.underMutex) = false) ∧
    (⟨MutOp.release, SharedVar.workFlag, false⟩ : MutationSite) ∈ mutationSites := by
  exact ⟨rfl, by decide⟩

/-- C8 amended: the condition variable is always waited on with the
predicate queue non-empty or deferred-stop or not running, and the queue
mutations in the posting operations and the worker dequeue are under the
mutex; but Release and ReleaseAfterWork write the run-state and
deferred-stop flags without holding the mutex (they are atomics), and the
destructor Clear mutates the queue after the lock has been released. -/
theorem mutation_discipline_amended (s : CServiceThread) :
    (CServiceThread.waitPredicate s = true ↔
      (s.m_WorkQueue ≠ [] ∨ s.m_bDeleteLater = true ∨ s.m_bWork = false)) ∧
    ((mutationSites.filter fun m =>
        decide (m.var = SharedVar.queue ∧ m.op ≠ MutOp.clearOnDestroy)).all
      fun m => m.underMutex) = true ∧
    ((mutationSites.filter fun m =>
        decide (m.op = MutOp.release ∨ m.op = MutOp.releaseAfterWork
          ∨ m.op = MutOp.clearOnDestroy)).all
      fun m => !m.underMutex) = true := by
  refine ⟨?_, rfl, rfl⟩
  have hie : s.m_WorkQueue.isEmpty = false ↔ s.m_WorkQueue ≠ [] := by
    cases s.m_WorkQueue <;> simp
  simp only [CServiceThread.waitPredicate, Bool.or_eq_true, Bool.not_eq_true', hie]
  exact or_assoc

/-- C9: the busy flag is initialized to false and never touched again: it
is false in every reachable system state, every operation of the executor
preserves it, and no mutation site in the lock-discipline table writes
it. -/
theorem busy_flag_constant_false (ops : List Op) (s : CServiceThread)
    (sys : Sys) (op : Op) (f g : Nat) (p : Option Nat) (lk : Bool) :
    (run ops).th.m_bBusy = false ∧
    CServiceThread.init.m_bBusy = false ∧
    (s.Post f).m_bBusy = s.m_bBusy ∧
    (s.PostH f p).m_bBusy = s.m_bBusy ∧
    (s.PostBindH p g).m_bBusy = s.m_bBusy ∧
    (CServiceThread.TryPost lk s f).2.m_bBusy = s.m_bBusy ∧
    s.Release.m_bBusy = s.m_bBusy ∧
    s.ReleaseAfterWork.m_bBusy = s.m_bBusy ∧
    (step sys op).th.m_bBusy = sys.th.m_bBusy ∧
    (mutationSites.all fun m => decide (m.var ≠ SharedVar.busyFlag)) = true := by
  refine ⟨foldl_busy ops Sys.init, rfl, ?_, ?_, ?_, ?_, rfl, rfl,
    step_busy sys op, rfl⟩
  · by_cases ha : s.acceptsPost = true <;> simp [CServiceThread.Post, ha]
  · by_cases ha : s.acceptsPost = true <;> simp [CServiceThread.PostH, ha]
  · by_cases ha : s.acceptsPost = true <;> simp [CServiceThread.PostBindH, ha]
  · cases lk with
    | true =>
        by_cases hc : (!s.m_bDeleteLater && s.m_bWork) = true <;>
          simp [CServiceThread.TryPost, hc]
    | false => rfl

/-- C10: every task-handle constructor used by the posting operations
initializes the handler field (NULL for the hookless ones, the supplied
pointer otherwise), while the constructor taking thread attributes leaves
it indeterminate, so Run on such a handle reads an indeterminate pointer
(undefined behavior, modelled as none). -/
theorem ctor_handler_initialization (f : Nat) (p : Option Nat) :
    (CServiceFunction.ofF f).m_pHandler = HandlerField.ptr none ∧
    (CServiceFunction.ofFH f p).m_pHandler = HandlerField.ptr p ∧
    (CServiceFunction.ofBind f).m_pHandler = HandlerField.ptr none ∧
    (CServiceFunction.ofBindH p f).m_pHandler = HandlerField.ptr p ∧
    (CServiceFunction.ofAttr f).m_pHandler = HandlerField.indeterminate ∧
    (CServiceFunction.ofAttr f).Run = none :=
  ⟨rfl, rfl, rfl, rfl, rfl, rfl⟩

end Service
